import Mathlib

/-!
Shallow embedding of the agreement-analysis scripts of the
serbian-llm-academic-writing-evaluation repository
(src/scripts/evaluate_reliability.py, compare_results.py, rq4.py,
error_pattern_analysis.py).

Scores read from the CSV files are modelled as rationals (ℚ); a missing
cell is `none`.  A value that the Python code represents as float NaN
(np.mean of an empty list, an undefined kappa, an undefined alpha) is
modelled as `none : Option ℚ`.  A Python exception that escapes a
function is modelled with `Except String`.
-/

namespace SerbianEval

/-- `np.mean` over a list of rationals: NaN (here `none`) on the empty list,
otherwise the arithmetic mean. -/
def npMean (l : List ℚ) : Option ℚ :=
  if l.isEmpty then none else some (l.sum / l.length)

/-- Sorted distinct values of a list, as produced by
`sorted(pd.unique(...))` in evaluate_reliability.py and by the sorted label
union inside sklearn. -/
def sortedCats (l : List ℚ) : List ℚ :=
  List.insertionSort (· ≤ ·) l.dedup

/-! ### Quadratic-weighted Cohen kappa (sklearn.metrics.cohen_kappa_score,
weights="quadratic"), as called from evaluate_reliability.py line 93 and
compare_results.py line 64. -/

/-- The sorted list of labels observed in either coordinate of the score
pairs; sklearn computes the confusion matrix over exactly these labels. -/
def labelsOf (pairs : List (ℚ × ℚ)) : List ℚ :=
  sortedCats (pairs.map Prod.fst ++ pairs.map Prod.snd)

/-- Entry of the confusion matrix: the number of pairs whose first
coordinate is `x` and second coordinate is `y`. -/
def confCount (pairs : List (ℚ × ℚ)) (x y : ℚ) : ℕ :=
  pairs.count (x, y)

/-- sklearn quadratic weight on label indices: `(i - j)^2`. -/
def wq (i j : ℕ) : ℚ :=
  ((i : ℚ) - (j : ℚ)) ^ 2

/-- `np.sum(w_mat * confusion)`: the weighted observed disagreement
numerator of the quadratic kappa. -/
def kappaNum (pairs : List (ℚ × ℚ)) : ℚ :=
  let L := labelsOf pairs
  ∑ i in Finset.range L.length, ∑ j in Finset.range L.length,
    wq i j * (confCount pairs (L.getD i 0) (L.getD j 0) : ℚ)

/-- Column sums of the confusion matrix (`confusion.sum(axis=0)`, the
per-label counts of the second rater). -/
def confColSum (pairs : List (ℚ × ℚ)) (j : ℕ) : ℚ :=
  let L := labelsOf pairs
  ∑ i in Finset.range L.length, (confCount pairs (L.getD i 0) (L.getD j 0) : ℚ)

/-- Row sums of the confusion matrix (`confusion.sum(axis=1)`, the
per-label counts of the first rater). -/
def confRowSum (pairs : List (ℚ × ℚ)) (i : ℕ) : ℚ :=
  let L := labelsOf pairs
  ∑ j in Finset.range L.length, (confCount pairs (L.getD i 0) (L.getD j 0) : ℚ)

/-- `np.sum(w_mat * expected)` where
`expected = np.outer(sum0, sum1) / np.sum(sum0)`. -/
def kappaDen (pairs : List (ℚ × ℚ)) : ℚ :=
  let L := labelsOf pairs
  ∑ i in Finset.range L.length, ∑ j in Finset.range L.length,
    wq i j * (confColSum pairs i * confRowSum pairs j /
      (∑ k in Finset.range L.length, confColSum pairs k))

/-- `cohen_kappa_score(y1, y2, weights="quadratic")`.
sklearn raises on empty input (the callers guard `len > 0` before calling);
when the weighted expected disagreement is zero the float division is 0/0,
i.e. NaN.  Both are modelled as `none`. -/
def cohenKappaQuad (pairs : List (ℚ × ℚ)) : Option ℚ :=
  if pairs.isEmpty then none
  else if kappaDen pairs = 0 then none
  else some (1 - kappaNum pairs / kappaDen pairs)

/-! ### Krippendorff alpha, ordinal level
(evaluate_reliability.py, krippendorff_alpha_ordinal, lines 10-42).
The caller feeds it a long table with exactly the two raters R1/R2 per
essay, so the pivoted column of each essay holds exactly the valid score
pair of that essay; the input is therefore modelled as the list of valid
score pairs of one dimension. -/

/-- One step of building the coincidence matrix: for the score pair `p`
of one essay the source increments both `C[p.1][p.2]` and `C[p.2][p.1]`
(lines 26-27). -/
def coinStep (C : ℚ → ℚ → ℕ) (p : ℚ × ℚ) : ℚ → ℚ → ℕ :=
  fun x y =>
    C x y + (if x = p.1 ∧ y = p.2 then 1 else 0)
          + (if x = p.2 ∧ y = p.1 then 1 else 0)

/-- The coincidence matrix, built by folding over the essays exactly as the
source loop does (lines 21-27). -/
def coinMat (pairs : List (ℚ × ℚ)) : ℚ → ℚ → ℕ :=
  pairs.foldl coinStep (fun _ _ => 0)

/-- The sorted distinct observed score categories
(`cats = sorted(pd.unique(scores_df_long["score"].dropna()))`, line 15). -/
def krippCats (pairs : List (ℚ × ℚ)) : List ℚ :=
  sortedCats (pairs.map Prod.fst ++ pairs.map Prod.snd)

/-- `delta2(i, j) = ((abs(i - j)) / (K - 1)) ** 2` (lines 32-33). -/
def delta2 (K : ℕ) (i j : ℚ) : ℚ :=
  (|i - j| / ((K : ℚ) - 1)) ^ 2

/-- `C.values.sum`: the total coincidence count, summed over all matrix
cells (the matrix is indexed by `cats` on both axes). -/
def totalCoin (pairs : List (ℚ × ℚ)) : ℚ :=
  let cats := krippCats pairs
  ∑ i in Finset.range cats.length, ∑ j in Finset.range cats.length,
    (coinMat pairs (cats.getD i 0) (cats.getD j 0) : ℚ)

/-- Observed disagreement `Do` (line 35): coincidence-weighted sum of
`delta2` over all category pairs, divided by the total coincidence count. -/
def krippDo (pairs : List (ℚ × ℚ)) : ℚ :=
  let cats := krippCats pairs
  (∑ i in Finset.range cats.length, ∑ j in Finset.range cats.length,
      delta2 cats.length (cats.getD i 0) (cats.getD j 0) *
        (coinMat pairs (cats.getD i 0) (cats.getD j 0) : ℚ)) /
    totalCoin pairs

/-- Marginal of category `a`: row sum of the coincidence matrix
(`m = C.sum(axis=1).values`, line 36). -/
def krippMarg (pairs : List (ℚ × ℚ)) (a : ℕ) : ℚ :=
  let cats := krippCats pairs
  ∑ j in Finset.range cats.length,
    (coinMat pairs (cats.getD a 0) (cats.getD j 0) : ℚ)

/-- Expected disagreement `De` (lines 37-39): marginal-product-weighted sum
of `delta2` over all category pairs, divided by the squared total marginal
count. -/
def krippDe (pairs : List (ℚ × ℚ)) : ℚ :=
  let cats := krippCats pairs
  (∑ a in Finset.range cats.length, ∑ b in Finset.range cats.length,
      delta2 cats.length (cats.getD a 0) (cats.getD b 0) *
        krippMarg pairs a * krippMarg pairs b) /
    (∑ a in Finset.range cats.length, krippMarg pairs a) ^ 2

/-- `krippendorff_alpha_ordinal` (lines 10-42): NaN (`none`) when fewer
than two distinct categories are observed, when the coincidence matrix is
all zero, or when `De` is zero; otherwise `1 - Do/De`.  Over ℚ the
`np.isnan(De)` test of line 40 cannot fire. -/
def krippAlpha (pairs : List (ℚ × ℚ)) : Option ℚ :=
  if (krippCats pairs).length ≤ 1 then none
  else if totalCoin pairs = 0 then none
  else if krippDe pairs = 0 then none
  else some (1 - krippDo pairs / krippDe pairs)

/-! ### Rated tables and the inner join
A CSV of scores is a `Table`: the list of rubric-dimension columns (the
identifier column `paper_name` / `Rad` is kept apart and therefore not in
`cols`), and one row per paper, each an association list from column name
to an optional score (a blank cell is `none`).  The repository invariant
(spec, data model) is that identifiers are unique within a table; under
that invariant the pandas inner merge is the lookup join below. -/

structure Table where
  cols : List String
  rows : List (String × List (String × Option ℚ))

/-- One row of the merged frame: the identifier and the two suffixed halves
(`_human`/`_gpt`, resp. `_r1`/`_r2`). -/
structure JoinedRow where
  name : String
  hvals : List (String × Option ℚ)
  gvals : List (String × Option ℚ)
deriving DecidableEq

/-- Reading one cell of a row half: absent column or blank cell is `none`. -/
def cell (r : List (String × Option ℚ)) (c : String) : Option ℚ :=
  (r.lookup c).join

/-- `left.merge(right, on=ID)` with unique identifiers: each left row is
paired with the right row of the same identifier, in left order; unmatched
rows drop out (inner join). -/
def joinRows (hrows grows : List (String × List (String × Option ℚ))) :
    List JoinedRow :=
  hrows.filterMap (fun hr =>
    (grows.lookup hr.1).map (fun gv => JoinedRow.mk hr.1 hr.2 gv))

def mergeTables (h g : Table) : List JoinedRow :=
  joinRows h.rows g.rows

/-- The masked score pair one joined row contributes to dimension `d`:
present only when neither side is missing (`mask = ~(h.isna() | g.isna())`). -/
def rowPair (r : JoinedRow) (d : String) : Option (ℚ × ℚ) :=
  match cell r.hvals d, cell r.gvals d with
  | some a, some b => some (a, b)
  | _, _ => none

/-- The valid (pairwise non-missing) score pairs of dimension `d`, in row
order — `h[mask], g[mask]` of the per-dimension loops. -/
def validPairs (joined : List JoinedRow) (d : String) : List (ℚ × ℚ) :=
  joined.filterMap (fun r => rowPair r d)

/-! ### Per-dimension agreement metrics (shared by
evaluate_reliability.py lines 92-98 and compare_results.py lines 62-83).
The callers only evaluate these on a nonempty pair list. -/

/-- `(s1 == s2).mean() * 100`. -/
def exactPct (pairs : List (ℚ × ℚ)) : ℚ :=
  ((pairs.countP (fun p => decide (p.1 = p.2)) : ℚ) / pairs.length) * 100

/-- `((s1 - s2).abs() <= 1).mean() * 100`. -/
def adjacentPct (pairs : List (ℚ × ℚ)) : ℚ :=
  ((pairs.countP (fun p => decide (|p.1 - p.2| ≤ 1)) : ℚ) / pairs.length) * 100

/-- `mean_absolute_error(h, g)`. -/
def maeOf (pairs : List (ℚ × ℚ)) : ℚ :=
  (pairs.map (fun p => |p.1 - p.2|)).sum / pairs.length

/-! ### rq4.py / error_pattern_analysis.py: error-pattern analysis.
The two scripts share the analysis function verbatim (only file locations
and the suffix tag differ). -/

/-- `error_type` of one delta, as the nested `np.where` of lines 64-66
writes it into the detailed output: the final branch catches every
`|delta| >= 2`. -/
def errorTypeOf (δ : ℚ) : String :=
  if δ = 0 then ("exact") else if |δ| = 1 then ("minor") else ("severe")

/-- `direction` of one delta (lines 67-69). -/
def directionOf (δ : ℚ) : String :=
  if 0 < δ then ("over") else if δ < 0 then ("under") else ("none")

/-- `np.mean(indicator(deltas)) * 100`: NaN (`none`) on the empty list. -/
def pctOf (l : List ℚ) (p : ℚ → Bool) : Option ℚ :=
  if l.isEmpty then none else some (((l.countP p : ℚ) / l.length) * 100)

/-- The summary row one analyzed file produces (lines 49-58). -/
structure ErrorSummary where
  n_comparisons : ℕ
  exact_pct : Option ℚ
  minor_pct : Option ℚ
  severe_pct : Option ℚ
  over_pct : Option ℚ
  under_pct : Option ℚ
  mean_delta : Option ℚ

/-- One row of the detailed output (lines 60-71). -/
structure DetailRow where
  delta : ℚ
  error_type : String
  direction : String

/-- The deltas dimension `d` contributes to the pooled list (lines 38-43):
`deltas.extend((g[mask] - h[mask]).tolist())`.  After the merge, pandas
suffixes a column name only when it occurs in both frames; a dimension
present only in the human table keeps its bare name, so the lookup of
`d + "_human"` raises a KeyError — there is no column-existence guard in
this script. -/
def dimDeltas (human gpt : Table) (d : String) : Except String (List ℚ) :=
  if d ∈ gpt.cols then
    Except.ok ((validPairs (mergeTables human gpt) d).map (fun p => p.2 - p.1))
  else Except.error ("KeyError: " ++ d ++ ("_human"))

/-- `analyze_gpt_file` (rq4.py lines 30-73) = `analyze_llm_file`
(error_pattern_analysis.py lines 30-73): pool the per-dimension deltas over
the human dimension list, then build the summary percentages
(note line 54: `severe_% = np.mean(np.abs(deltas) == 2) * 100`, an exact
test against 2) and the per-delta detailed rows.  The loop over the
dimensions is `collectDeltas`: it extends the pooled delta list dimension
by dimension and lets the KeyError of a missing column escape. -/
def collectDeltas (human gpt : Table) : List String → Except String (List ℚ)
  | [] => Except.ok []
  | d :: ds => do
      let x ← dimDeltas human gpt d
      let rest ← collectDeltas human gpt ds
      Except.ok (x ++ rest)

/-- `analyze_gpt_file` (rq4.py lines 30-73) = `analyze_llm_file`
(error_pattern_analysis.py lines 30-73): pool the per-dimension deltas over
the human dimension list, then build the summary percentages
(note line 54: `severe_% = np.mean(np.abs(deltas) == 2) * 100`, an exact
test against 2) and the per-delta detailed rows. -/
def analyzeGptFile (human gpt : Table) :
    Except String (ErrorSummary × List DetailRow) := do
  let deltas ← collectDeltas human gpt human.cols
  Except.ok
    ({ n_comparisons := deltas.length
       exact_pct := pctOf deltas (fun δ => decide (δ = 0))
       minor_pct := pctOf deltas (fun δ => decide (|δ| = 1))
       severe_pct := pctOf deltas (fun δ => decide (|δ| = 2))
       over_pct := pctOf deltas (fun δ => decide (0 < δ))
       under_pct := pctOf deltas (fun δ => decide (δ < 0))
       mean_delta := npMean deltas },
     deltas.map (fun δ => DetailRow.mk δ (errorTypeOf δ) (directionOf δ)))

/-- The batch loop of rq4.py lines 79-89: each file is read and analyzed
with no exception handling around it, and the per-file results are
collected and concatenated at the end.  A file whose read or analysis
raises is modelled as an `Except.error` input resp. output; the
exception propagates out of the loop. -/
def runBatchAux (human : Table) :
    List (Except String Table) →
      Except String (List (ErrorSummary × List DetailRow))
  | [] => Except.ok []
  | f :: fs => do
      let g ← f
      let r ← analyzeGptFile human g
      let rest ← runBatchAux human fs
      Except.ok (r :: rest)

/-- Collect the per-file summaries and the concatenated detailed rows, as
lines 88-92 do after the loop. -/
def runRq4Batch (human : Table) (files : List (Except String Table)) :
    Except String (List ErrorSummary × List DetailRow) :=
  (runBatchAux human files).map
    (fun rs => (rs.map Prod.fst, (rs.map Prod.snd).flatten))

/-! ### compare_results.py: evaluate_one_gpt_file (lines 27-109). -/

/-- `np.median`: NaN (`none`) on the empty list, else the middle of the
sorted list (mean of the two middles for even length). -/
def npMedian (l : List ℚ) : Option ℚ :=
  let s := List.insertionSort (· ≤ ·) l
  if l.isEmpty then none
  else if l.length % 2 = 1 then some (s.getD (l.length / 2) 0)
  else some ((s.getD (l.length / 2 - 1) 0 + s.getD (l.length / 2) 0) / 2)

/-- The four accumulator lists of the per-dimension loop
(compare_results.py lines 38-41). -/
structure GptAcc where
  kappaList : List ℚ
  exactList : List ℚ
  adjacentList : List ℚ
  maeList : List ℚ

/-- One iteration of the loop (lines 46-83): skip a dimension whose
suffixed columns are absent (line 50; both exist iff the dimension is in
both frames) or with no valid pair (line 59); compute the quadratic kappa
and append it only when it is defined (lines 63-78: a NaN kappa is
printed and not appended, an exception is caught and not appended); the
exact/adjacent/MAE values are appended for every surviving dimension
(lines 81-83). -/
def gptStep (joined : List JoinedRow) (gcols : List String) (acc : GptAcc)
    (d : String) : GptAcc :=
  if d ∈ gcols then
    let pairs := validPairs joined d
    if pairs.isEmpty then acc
    else
      let acc1 :=
        match cohenKappaQuad pairs with
        | some k => { acc with kappaList := acc.kappaList ++ [k] }
        | none => acc
      { acc1 with
        exactList := acc1.exactList ++ [exactPct pairs]
        adjacentList := acc1.adjacentList ++ [adjacentPct pairs]
        maeList := acc1.maeList ++ [maeOf pairs] }
  else acc

/-- The per-file summary row (lines 99-109).  The total-score Spearman rho
and total-score MAE of lines 88-92 are not part of any claim and are not
modelled. -/
structure GptSummary where
  kappa_mean : Option ℚ
  kappa_median : Option ℚ
  exact_mean : Option ℚ
  adjacent_mean : Option ℚ
  mae_dim_mean : Option ℚ
  n_dimensions_evaluated : ℕ

/-- `evaluate_one_gpt_file` (lines 27-109): merge, run the per-dimension
loop over the human dimension list, aggregate with `np.mean`/`np.median`;
`n_dimensions_evaluated = len(kappa_list)` (line 108). -/
def evaluateOneGptFile (human gpt : Table) : GptSummary :=
  let joined := mergeTables human gpt
  let acc := human.cols.foldl (gptStep joined gpt.cols) (GptAcc.mk [] [] [] [])
  { kappa_mean := npMean acc.kappaList
    kappa_median := npMedian acc.kappaList
    exact_mean := npMean acc.exactList
    adjacent_mean := npMean acc.adjacentList
    mae_dim_mean := npMean acc.maeList
    n_dimensions_evaluated := acc.kappaList.length }

/-! ### evaluate_reliability.py module level (lines 61-119). -/

/-- Line 61: `sorted(list(set(r1.columns) & set(r2.columns) - set(Rad)))`.
`Table.cols` already excludes the identifier column, so the subtraction of
the identifier is pre-applied. -/
def commonDims (c1 c2 : List String) : List String :=
  List.insertionSort (· ≤ ·) (c1.dedup.filter (fun c => decide (c ∈ c2)))

/-- Lines 68-69: the one-sided column lists printed as warnings. -/
def onlyInFirst (c1 c2 : List String) : List String :=
  List.insertionSort (· ≤ ·) (c1.dedup.filter (fun c => decide (c ∉ c2)))

/-- One output row of the per-dimension metrics table (lines 110-119). -/
structure DimMetrics where
  dimension : String
  n_pairs : ℕ
  kappa_w_quad : Option ℚ
  alpha_ordinal : Option ℚ
  exact_pct : ℚ
  adjacent_pct : ℚ

/-- The per-dimension loop of lines 79-119: over the sorted common
dimensions, skip a dimension with no valid pairs (line 89), else record
kappa, alpha, exact and adjacent agreement. -/
def reliabilityRows (r1 r2 : Table) : List DimMetrics :=
  let joined := mergeTables r1 r2
  (commonDims r1.cols r2.cols).filterMap (fun d =>
    let pairs := validPairs joined d
    if pairs.isEmpty then none
    else some (DimMetrics.mk d pairs.length (cohenKappaQuad pairs)
      (krippAlpha pairs) (exactPct pairs) (adjacentPct pairs)))

/-! ### The claim-side (specification) coincidence matrix for C1:
the symmetric pair-count matrix. -/

/-- The coincidence matrix as the specification describes it: each
unordered score pair is entered at both `(i, j)` and `(j, i)`. -/
def specCoin (pairs : List (ℚ × ℚ)) (x y : ℚ) : ℕ :=
  pairs.count (x, y) + pairs.count (y, x)

/-! ### C1: the ordinal-alpha formula, spec side.
These definitions follow the words of the specification (spec.md §4.2
point 3), to be compared with the source-derived `krippAlpha`. -/

/-- Marginal of category `a`: row sum of the symmetric coincidence
matrix. -/
def specMarg (pairs : List (ℚ × ℚ)) (a : ℕ) : ℚ :=
  let cats := krippCats pairs
  ∑ j in Finset.range cats.length,
    (specCoin pairs (cats.getD a 0) (cats.getD j 0) : ℚ)

/-- Total coincidence count: the sum of all coincidence-matrix entries. -/
def specTotal (pairs : List (ℚ × ℚ)) : ℚ :=
  let cats := krippCats pairs
  ∑ i in Finset.range cats.length, ∑ j in Finset.range cats.length,
    (specCoin pairs (cats.getD i 0) (cats.getD j 0) : ℚ)

/-- Observed disagreement as the claim states it: the sum of
`disagreement(i,j)` weighted by the coincidence matrix, divided by the
total coincidence count. -/
def specDo (pairs : List (ℚ × ℚ)) : ℚ :=
  let cats := krippCats pairs
  (∑ i in Finset.range cats.length, ∑ j in Finset.range cats.length,
      delta2 cats.length (cats.getD i 0) (cats.getD j 0) *
        (specCoin pairs (cats.getD i 0) (cats.getD j 0) : ℚ)) /
    specTotal pairs

/-- Expected disagreement as the claim states it: the sum of
`disagreement` over all category pairs weighted by the product of the
coincidence-matrix marginals, divided by the squared total marginal
count. -/
def specDe (pairs : List (ℚ × ℚ)) : ℚ :=
  let cats := krippCats pairs
  (∑ a in Finset.range cats.length, ∑ b in Finset.range cats.length,
      delta2 cats.length (cats.getD a 0) (cats.getD b 0) *
        specMarg pairs a * specMarg pairs b) /
    (∑ a in Finset.range cats.length, specMarg pairs a) ^ 2

/-! ### Concrete input fixtures used by the closed evaluation theorems. -/

/-- Human table: one paper, one dimension, score 0. -/
def tBugHuman : Table :=
  Table.mk [("a")] [(("P1"), [(("a"), some 0)])]

/-- Automated table: the same paper and dimension, score 3. -/
def tBugGpt : Table :=
  Table.mk [("a")] [(("P1"), [(("a"), some 3)])]

/-- Human table with one paper P1; the automated table `tEmptyGpt` has a
different paper, so the inner join is empty. -/
def tEmptyHuman : Table :=
  Table.mk [("a")] [(("P1"), [(("a"), some 1)])]

/-- Automated table whose only paper P2 does not occur in `tEmptyHuman`. -/
def tEmptyGpt : Table :=
  Table.mk [("a")] [(("P2"), [(("a"), some 2)])]

/-- Human table with dimension b, which the automated table lacks. -/
def tMissHuman : Table :=
  Table.mk [("b")] [(("P1"), [(("b"), some 1)])]

/-- Automated table with dimension a only. -/
def tMissGpt : Table :=
  Table.mk [("a")] [(("P1"), [(("a"), some 1)])]

/-- A trivially valid table: no dimensions, no rows. -/
def tTrivial : Table :=
  Table.mk [] []

/-- The per-dimension pair lists that the compare_results loop actually
processes, in loop order: dimensions present in both frames whose valid
pair list is nonempty. -/
def procPairs (joined : List JoinedRow) (gcols : List String)
    (cols : List String) : List (List (ℚ × ℚ)) :=
  ((cols.filter (fun d => decide (d ∈ gcols))).map
    (fun d => validPairs joined d)).filter (fun ps => !ps.isEmpty)

/-- The processed per-dimension pair lists of one evaluate_one_gpt_file
run. -/
def procPairsOf (human gpt : Table) : List (List (ℚ × ℚ)) :=
  procPairs (mergeTables human gpt) gpt.cols human.cols

/-- A joined row whose human score is missing in dimension A but whose
dimension-B scores are present on both sides. -/
def rMissA : JoinedRow :=
  JoinedRow.mk ("P1") [(("A"), none), (("B"), some 1)]
    [(("A"), some 2), (("B"), some 2)]

/-- Two-dimension tables: dimension a is constant and identical (kappa
undefined), dimension b varies (kappa defined). -/
def tC10Human : Table :=
  Table.mk [("a"), ("b")]
    [(("P1"), [(("a"), some 1), (("b"), some 0)]),
     (("P2"), [(("a"), some 1), (("b"), some 1)])]

/-- The automated counterpart of `tC10Human`, with identical scores. -/
def tC10Gpt : Table :=
  Table.mk [("a"), ("b")]
    [(("P1"), [(("a"), some 1), (("b"), some 0)]),
     (("P2"), [(("a"), some 1), (("b"), some 1)])]

/-- A table with two papers scoring 0 and 1 on one dimension, used to
compare against itself. -/
def tC7 : Table :=
  Table.mk [("a")]
    [(("P1"), [(("a"), some 0)]), (("P2"), [(("a"), some 1)])]

/-- Exchanging the over/under direction labels (the claim-side description
of what swapping the rater roles does to the direction classification). -/
def flipDir (s : String) : String :=
  if s = ("over") then ("under") else if s = ("under") then ("over") else s

/-- Swapping the two halves of a joined row (what exchanging the two input
tables does to each merged row). -/
def swapRow (r : JoinedRow) : JoinedRow :=
  JoinedRow.mk r.name r.gvals r.hvals

/-- An automated table over the same papers and dimensions as `tC10Human`
but with different scores, used for the role-swap witness. -/
def tC8Gpt : Table :=
  Table.mk [("a"), ("b")]
    [(("P1"), [(("a"), some 0), (("b"), some 2)]),
     (("P2"), [(("a"), some 2), (("b"), some 0)])]

/-! ### Basic lemmas -/

theorem coinMat_aux (pairs : List (ℚ × ℚ)) (C : ℚ → ℚ → ℕ) (x y : ℚ) :
    pairs.foldl coinStep C x y = C x y + pairs.count (x, y) + pairs.count (y, x) := by
  induction pairs generalizing C with
  | nil => simp
  | cons p t ih =>
      obtain ⟨p1, p2⟩ := p
      simp only [List.foldl_cons, ih, coinStep, List.count_cons, beq_iff_eq,
        Prod.mk.injEq]
      by_cases h1 : x = p1 <;> by_cases h2 : y = p2 <;>
        by_cases h3 : x = p2 <;> by_cases h4 : y = p1 <;>
        simp [h1, h2, h3, h4, eq_comm] <;> omega

/-- The fold that the source uses to build the coincidence matrix computes
exactly the symmetric pair-count matrix of the specification. -/
theorem coinMat_eq_specCoin (pairs : List (ℚ × ℚ)) (x y : ℚ) :
    coinMat pairs x y = specCoin pairs x y := by
  simpa [coinMat, specCoin] using coinMat_aux pairs (fun _ _ => 0) x y

theorem sortedCats_nodup (l : List ℚ) : (sortedCats l).Nodup :=
  ((List.perm_insertionSort _ _).nodup_iff).mpr l.nodup_dedup

theorem mem_sortedCats {l : List ℚ} {x : ℚ} : x ∈ sortedCats l ↔ x ∈ l := by
  rw [sortedCats, (List.perm_insertionSort _ _).mem_iff, List.mem_dedup]

theorem sortedCats_sorted (l : List ℚ) :
    (sortedCats l).Sorted (· ≤ ·) :=
  List.sorted_insertionSort _ _

/-- Two lists with the same members have the same sorted distinct values. -/
theorem sortedCats_congr {l₁ l₂ : List ℚ} (h : ∀ x, x ∈ l₁ ↔ x ∈ l₂) :
    sortedCats l₁ = sortedCats l₂ := by
  refine List.eq_of_perm_of_sorted ?_ (sortedCats_sorted l₁) (sortedCats_sorted l₂)
  refine (List.perm_insertionSort _ _).trans (List.Perm.trans ?_
    (List.perm_insertionSort _ _).symm)
  refine (List.perm_ext_iff_of_nodup l₁.nodup_dedup l₂.nodup_dedup).mpr ?_
  intro a; simpa [List.mem_dedup] using h a

/-- In a list of key-value pairs with unique keys, lookup of a present key
returns its value. -/
theorem lookup_of_nodup {β : Type} (l : List (String × β)) (k : String) (v : β)
    (hnd : (l.map Prod.fst).Nodup) (hm : (k, v) ∈ l) : l.lookup k = some v := by
  induction l with
  | nil => cases hm
  | cons p t ih =>
      rcases List.mem_cons.mp hm with h | h
      · subst h; simp [List.lookup]
      · have hk : k ≠ p.1 := by
          intro he
          have hmem : k ∈ t.map Prod.fst := List.mem_map.mpr ⟨(k, v), h, rfl⟩
          rw [he] at hmem
          exact (List.nodup_cons.mp (by simpa using hnd)).1 hmem
        have hbeq : (k == p.1) = false := by
          simpa using hk
        simp only [List.lookup, hbeq]
        exact ih (List.nodup_cons.mp (by simpa using hnd)).2 h

/-- Removing an element that the filter map sends to `none` does not change
the result of the filter map. -/
theorem filterMap_erase {α β : Type} [DecidableEq α] (f : α → Option β)
    (l : List α) (a : α) (hf : f a = none) :
    (l.erase a).filterMap f = l.filterMap f := by
  induction l with
  | nil => simp
  | cons b t ih =>
      by_cases hb : b = a
      · subst hb
        rw [List.erase_cons_head, List.filterMap_cons_none hf]
      · rw [List.erase_cons_tail (by simpa using hb)]
        rcases hfb : f b with _ | v
        · rw [List.filterMap_cons_none hfb, List.filterMap_cons_none hfb, ih]
        · rw [List.filterMap_cons_some hfb, List.filterMap_cons_some hfb, ih]

theorem krippDo_eq_specDo (pairs : List (ℚ × ℚ)) :
    krippDo pairs = specDo pairs := by
  simp only [krippDo, specDo, totalCoin, specTotal, coinMat_eq_specCoin]

theorem krippMarg_eq_specMarg (pairs : List (ℚ × ℚ)) (a : ℕ) :
    krippMarg pairs a = specMarg pairs a := by
  simp only [krippMarg, specMarg, coinMat_eq_specCoin]

theorem krippDe_eq_specDe (pairs : List (ℚ × ℚ)) :
    krippDe pairs = specDe pairs := by
  simp only [krippDe, specDe, krippMarg_eq_specMarg]

theorem totalCoin_eq_specTotal (pairs : List (ℚ × ℚ)) :
    totalCoin pairs = specTotal pairs := by
  simp only [totalCoin, specTotal, coinMat_eq_specCoin]

/-- When the coincidence matrix is all zero, the expected disagreement of
the specification formula is zero as well. -/
theorem specDe_eq_zero_of_total (pairs : List (ℚ × ℚ))
    (h : specTotal pairs = 0) : specDe pairs = 0 := by
  have hcoin : ∀ i ∈ Finset.range (krippCats pairs).length,
      ∀ j ∈ Finset.range (krippCats pairs).length,
      (specCoin pairs ((krippCats pairs).getD i 0)
        ((krippCats pairs).getD j 0) : ℚ) = 0 := by
    have h0 := (Finset.sum_eq_zero_iff_of_nonneg (fun i _ =>
      Finset.sum_nonneg (fun j _ => by positivity))).mp h
    intro i hi j hj
    exact (Finset.sum_eq_zero_iff_of_nonneg (fun j _ => by positivity)).mp
      (h0 i hi) j hj
  have hmarg : ∀ a ∈ Finset.range (krippCats pairs).length,
      specMarg pairs a = 0 := by
    intro a ha
    exact Finset.sum_eq_zero (fun j hj => hcoin a ha j hj)
  unfold specDe
  dsimp only
  rw [Finset.sum_eq_zero, zero_div]
  intro a ha
  rw [Finset.sum_eq_zero]
  intro b hb
  rw [hmarg a ha, mul_zero, zero_mul]

/-- C1: for a per-dimension list of valid score pairs with at least two
distinct observed categories, `krippendorff_alpha_ordinal` returns
`1 - Do/De` with `Do` and `De` given by the coincidence-matrix formulas of
the specification (NaN when `De` is zero), and with fewer than two
distinct observed categories it returns the NaN sentinel rather than
raising. -/
theorem krippendorff_alpha_formula (pairs : List (ℚ × ℚ)) :
    (2 ≤ (krippCats pairs).length →
      krippAlpha pairs =
        if specDe pairs = 0 then none
        else some (1 - specDo pairs / specDe pairs)) ∧
    ((krippCats pairs).length ≤ 1 → krippAlpha pairs = none) := by
  constructor
  · intro hK
    have hne : ¬ (krippCats pairs).length ≤ 1 := by omega
    unfold krippAlpha
    rw [if_neg hne]
    by_cases ht : totalCoin pairs = 0
    · rw [if_pos ht]
      have hDe0 : specDe pairs = 0 :=
        specDe_eq_zero_of_total pairs (by rw [← totalCoin_eq_specTotal]; exact ht)
      rw [if_pos hDe0]
    · rw [if_neg ht, krippDe_eq_specDe, krippDo_eq_specDo]
  · intro h
    unfold krippAlpha
    rw [if_pos h]

/-- Witness for C1 at the concrete pair list [(0,0), (1,1)]: the
hypothesis of two observed categories holds and the formula evaluates. -/
theorem krippendorff_alpha_formula_witness :
    krippAlpha [((0 : ℚ), (0 : ℚ)), (1, 1)] =
      if specDe [((0 : ℚ), (0 : ℚ)), (1, 1)] = 0 then none
      else some (1 - specDo [((0 : ℚ), (0 : ℚ)), (1, 1)] /
        specDe [((0 : ℚ), (0 : ℚ)), (1, 1)]) :=
  (krippendorff_alpha_formula [((0 : ℚ), (0 : ℚ)), (1, 1)]).1 (by
    norm_num [krippCats, sortedCats, List.insertionSort, List.orderedInsert])

/-- C2: at delta = 3 (human score 0, automated score 3) the summary row
classifies the pair as neither exact nor minor nor severe — line 54 tests
`np.abs(deltas) == 2` exactly — so the three summary percentages sum to 0,
not 100, while the detailed record of the same run labels the same delta
"severe"; the summary and detailed classifications disagree exactly as a
hard-coded score range would. -/
theorem rq4_severe_mismatch :
    analyzeGptFile tBugHuman tBugGpt =
      Except.ok
        ({ n_comparisons := 1
           exact_pct := some 0
           minor_pct := some 0
           severe_pct := some 0
           over_pct := some 100
           under_pct := some 0
           mean_delta := some 3 },
         [DetailRow.mk 3 ("severe") ("over")]) := by
  norm_num [analyzeGptFile, tBugHuman, tBugGpt, dimDeltas, mergeTables,
    joinRows, validPairs, rowPair, cell, List.lookup, pctOf, npMean,
    errorTypeOf, directionOf, collectDeltas, Bind.bind,
    Except.bind, pure, Except.pure, List.filterMap_cons, List.filterMap_nil,
    Option.bind, Option.map, List.countP_cons, List.countP_nil]

theorem collectDeltas_empty_join (human gpt : Table)
    (hj : mergeTables human gpt = []) :
    ∀ cols : List String, (∀ d ∈ cols, d ∈ gpt.cols) →
      collectDeltas human gpt cols = Except.ok [] := by
  intro cols hsub
  induction cols with
  | nil => rfl
  | cons d ds ih =>
      have hd : d ∈ gpt.cols := hsub d (by simp)
      have hdim : dimDeltas human gpt d = Except.ok [] := by
        unfold dimDeltas
        rw [if_pos hd, hj]
        rfl
      have hrest := ih (fun x hx => hsub x (List.mem_cons_of_mem _ hx))
      simp [collectDeltas, hdim, hrest, Bind.bind, Except.bind]

/-- C4 counterexample: two tables whose inner join has zero rows do not
make the analysis fail — there is no EmptyInputError anywhere in the
repository; rq4 silently returns a summary row with zero comparisons and
NaN percentage metrics. -/
theorem rq4_empty_join_no_error :
    analyzeGptFile tEmptyHuman tEmptyGpt =
      Except.ok (ErrorSummary.mk 0 none none none none none none, []) := by
  have hj : mergeTables tEmptyHuman tEmptyGpt = [] := by
    simp [mergeTables, tEmptyHuman, tEmptyGpt, joinRows, List.lookup]
  have hc : collectDeltas tEmptyHuman tEmptyGpt tEmptyHuman.cols =
      Except.ok [] :=
    collectDeltas_empty_join _ _ hj _
      (by intro d hd; simpa [tEmptyGpt, tEmptyHuman] using hd)
  simp [analyzeGptFile, hc, Bind.bind, Except.bind, pure, Except.pure,
    pctOf, npMean]

/-- C4 amended: when the inner join of the two tables produces zero rows
(and every human dimension is present in the automated table, so no
KeyError fires first), the analysis does not raise any error: it returns a
summary row with `n_comparisons = 0` and every percentage metric NaN, and
an empty detailed table. -/
theorem rq4_empty_join_nan_row (human gpt : Table)
    (hj : mergeTables human gpt = [])
    (hsub : ∀ d ∈ human.cols, d ∈ gpt.cols) :
    analyzeGptFile human gpt =
      Except.ok (ErrorSummary.mk 0 none none none none none none, []) := by
  unfold analyzeGptFile
  rw [collectDeltas_empty_join human gpt hj human.cols hsub]
  simp [Bind.bind, Except.bind, pure, Except.pure, pctOf, npMean]

/-- Witness for C4 amended, at the concrete disjoint-paper tables. -/
theorem rq4_empty_join_nan_row_witness :
    mergeTables tEmptyHuman tEmptyGpt = [] ∧
      analyzeGptFile tEmptyHuman tEmptyGpt =
        Except.ok (ErrorSummary.mk 0 none none none none none none, []) :=
  ⟨by simp [mergeTables, tEmptyHuman, tEmptyGpt, joinRows, List.lookup],
    rq4_empty_join_nan_row tEmptyHuman tEmptyGpt
      (by simp [mergeTables, tEmptyHuman, tEmptyGpt, joinRows, List.lookup])
      (by intro d hd; simpa [tEmptyGpt, tEmptyHuman] using hd)⟩

theorem mem_commonDims {c1 c2 : List String} {d : String} :
    d ∈ commonDims c1 c2 ↔ d ∈ c1 ∧ d ∈ c2 := by
  unfold commonDims
  rw [(List.perm_insertionSort _ _).mem_iff]
  simp [List.mem_filter, List.mem_dedup]

theorem mem_onlyInFirst {c1 c2 : List String} {d : String} :
    d ∈ onlyInFirst c1 c2 ↔ d ∈ c1 ∧ d ∉ c2 := by
  unfold onlyInFirst
  rw [(List.perm_insertionSort _ _).mem_iff]
  simp [List.mem_filter, List.mem_dedup]

theorem collectDeltas_error_of_missing (human gpt : Table) :
    ∀ cols : List String, ∀ d ∈ cols, d ∉ gpt.cols →
      ∃ e, collectDeltas human gpt cols = Except.error e := by
  intro cols
  induction cols with
  | nil => intro d hd; cases hd
  | cons c cs ih =>
      intro d hd hdg
      rcases List.mem_cons.mp hd with rfl | hmem
      · refine ⟨("KeyError: " ++ d ++ ("_human")), ?_⟩
        simp [collectDeltas, dimDeltas, hdg, Bind.bind, Except.bind]
      · cases hdim : dimDeltas human gpt c with
        | error e => exact ⟨e, by simp [collectDeltas, hdim, Bind.bind, Except.bind]⟩
        | ok x =>
            rcases ih d hmem hdg with ⟨e, he⟩
            exact ⟨e, by simp [collectDeltas, hdim, he, Bind.bind, Except.bind]⟩

/-- C5 counterexample: an automated table that lacks a dimension of the
human table makes rq4 raise a KeyError instead of skipping the dimension
with a warning. -/
theorem rq4_missing_dim_raises :
    analyzeGptFile tMissHuman tMissGpt =
      Except.error ("KeyError: b_human") := by
  have hd : dimDeltas tMissHuman tMissGpt ("b") =
      Except.error ("KeyError: b_human") := by
    unfold dimDeltas
    rw [if_neg (by decide)]
    exact congrArg Except.error (by decide)
  have hcols : tMissHuman.cols = [("b")] := rfl
  simp only [analyzeGptFile, hcols, collectDeltas, hd, Bind.bind, Except.bind]

/-- C5 amended: evaluate_reliability scores exactly the dimensions present
in both tables (the sorted intersection) and computes the one-sided
dimensions as warning lists, never failing — but rq4 raises a KeyError as
soon as the automated table lacks a dimension of the human table. -/
theorem dimension_mismatch_behavior :
    (∀ c1 c2 : List String, ∀ d : String,
        (d ∈ commonDims c1 c2 ↔ d ∈ c1 ∧ d ∈ c2) ∧
        (d ∈ onlyInFirst c1 c2 ↔ d ∈ c1 ∧ d ∉ c2)) ∧
    (∀ r1 r2 : Table, ∀ row : DimMetrics, row ∈ reliabilityRows r1 r2 →
        row.dimension ∈ commonDims r1.cols r2.cols) ∧
    (∀ human gpt : Table, ∀ d : String, d ∈ human.cols → d ∉ gpt.cols →
        ∃ e, analyzeGptFile human gpt = Except.error e) := by
  refine ⟨fun c1 c2 d => ⟨mem_commonDims, mem_onlyInFirst⟩, ?_, ?_⟩
  · intro r1 r2 row hr
    unfold reliabilityRows at hr
    rcases List.mem_filterMap.mp hr with ⟨d, hd, hf⟩
    by_cases hp : (validPairs (mergeTables r1 r2) d).isEmpty
    · rw [if_pos hp] at hf; cases hf
    · rw [if_neg hp] at hf
      injection hf with hf
      rw [← hf]
      exact hd
  · intro human gpt d hdh hdg
    rcases collectDeltas_error_of_missing human gpt human.cols d hdh hdg
      with ⟨e, he⟩
    exact ⟨e, by simp [analyzeGptFile, he, Bind.bind, Except.bind]⟩

theorem reliabilityRows_tMissGpt_self :
    reliabilityRows tMissGpt tMissGpt =
      [DimMetrics.mk ("a") 1 none none 100 100] := by
  have hm : mergeTables tMissGpt tMissGpt =
      [JoinedRow.mk ("P1") [(("a"), some 1)] [(("a"), some 1)]] := by
    simp [mergeTables, tMissGpt, joinRows, List.lookup]
  have hv : validPairs (mergeTables tMissGpt tMissGpt) ("a") = [(1, 1)] := by
    rw [hm]; simp [validPairs, rowPair, cell, List.lookup]
  have hcommon : commonDims tMissGpt.cols tMissGpt.cols = [("a")] := by
    simp [commonDims, tMissGpt, List.insertionSort, List.orderedInsert,
      List.dedup_cons_of_not_mem]
  have hk : cohenKappaQuad [((1 : ℚ), (1 : ℚ))] = none := by
    norm_num [cohenKappaQuad, kappaDen, labelsOf, sortedCats,
      List.insertionSort, List.orderedInsert, confColSum, confRowSum,
      confCount, wq, Finset.sum_range_succ]
  have ha : krippAlpha [((1 : ℚ), (1 : ℚ))] = none := by
    norm_num [krippAlpha, krippCats, sortedCats, List.insertionSort,
      List.orderedInsert]
  have hex : exactPct [((1 : ℚ), (1 : ℚ))] = 100 := by
    norm_num [exactPct, List.countP_cons, List.countP_nil]
  have had : adjacentPct [((1 : ℚ), (1 : ℚ))] = 100 := by
    norm_num [adjacentPct, List.countP_cons, List.countP_nil]
  unfold reliabilityRows
  rw [hcommon]
  simp only [List.filterMap_cons, List.filterMap_nil, hv]
  simp
  exact ⟨by simpa using hk, by simpa using ha, by simpa using hex,
    by simpa using had⟩

/-- Witness for C5 amended: a concrete reliability row lands in the common
dimensions, and concrete mismatched tables make rq4 raise. -/
theorem dimension_mismatch_behavior_witness :
    (DimMetrics.mk ("a") 1 none none 100 100).dimension ∈
        commonDims tMissGpt.cols tMissGpt.cols ∧
      ∃ e, analyzeGptFile tMissHuman tMissGpt = Except.error e :=
  ⟨dimension_mismatch_behavior.2.1 tMissGpt tMissGpt
      (DimMetrics.mk ("a") 1 none none 100 100)
      (by rw [reliabilityRows_tMissGpt_self]; exact List.mem_singleton.mpr rfl),
    dimension_mismatch_behavior.2.2 tMissHuman tMissGpt ("b")
      (by decide) (by decide)⟩

theorem runBatchAux_error_of_mem (human : Table) :
    ∀ files : List (Except String Table), ∀ e : String,
      Except.error e ∈ files →
      ∃ e2, runBatchAux human files = Except.error e2 := by
  intro files
  induction files with
  | nil => intro e he; cases he
  | cons f fs ih =>
      intro e he
      rcases List.mem_cons.mp he with rfl | hmem
      · exact ⟨e, by simp [runBatchAux, Bind.bind, Except.bind]⟩
      · cases f with
        | error e1 => exact ⟨e1, by simp [runBatchAux, Bind.bind, Except.bind]⟩
        | ok g =>
            cases ha : analyzeGptFile human g with
            | error e1 =>
                exact ⟨e1, by simp [runBatchAux, ha, Bind.bind, Except.bind]⟩
            | ok r =>
                rcases ih e hmem with ⟨e2, he2⟩
                exact ⟨e2, by simp [runBatchAux, ha, he2, Bind.bind, Except.bind]⟩

/-- C6 counterexample: a batch of three automated files of which the second
is malformed (its read raises) aborts the whole run with that error — the
summary output has no rows at all, not two. -/
theorem rq4_batch_aborts :
    runRq4Batch tTrivial
        [Except.ok tTrivial, Except.error ("ParserError"), Except.ok tTrivial] =
      Except.error ("ParserError") := by
  have hc : collectDeltas tTrivial tTrivial tTrivial.cols = Except.ok [] :=
    collectDeltas_empty_join tTrivial tTrivial rfl _ (by intro d hd; cases hd)
  have h1 : analyzeGptFile tTrivial tTrivial =
      Except.ok (ErrorSummary.mk 0 none none none none none none, []) := by
    simp [analyzeGptFile, hc, Bind.bind, Except.bind, pure, Except.pure,
      pctOf, npMean]
  have h2 : runBatchAux tTrivial
      [Except.error ("ParserError"), Except.ok tTrivial] =
        Except.error ("ParserError") := by
    simp [runBatchAux, Bind.bind, Except.bind]
  have h3 : runBatchAux tTrivial
      [Except.ok tTrivial, Except.error ("ParserError"), Except.ok tTrivial] =
        Except.error ("ParserError") := by
    simp [runBatchAux, h1, h2, Bind.bind, Except.bind]
  simp [runRq4Batch, h3, Except.map]

/-- C6 amended: the batch loop has no exception handling, so any malformed
file in the batch makes the whole run fail with an error; no summary rows
are produced for the other files. -/
theorem rq4_batch_error_propagates (human : Table)
    (files : List (Except String Table)) (e : String)
    (hmem : Except.error e ∈ files) :
    ∃ e2, runRq4Batch human files = Except.error e2 := by
  rcases runBatchAux_error_of_mem human files e hmem with ⟨e2, he2⟩
  exact ⟨e2, by simp [runRq4Batch, he2, Except.map]⟩

/-- Witness for C6 amended at the concrete three-file batch. -/
theorem rq4_batch_error_propagates_witness :
    ∃ e2, runRq4Batch tTrivial
        [Except.ok tTrivial, Except.error ("ParserError"), Except.ok tTrivial] =
      Except.error e2 :=
  rq4_batch_error_propagates tTrivial
    [Except.ok tTrivial, Except.error ("ParserError"), Except.ok tTrivial]
    ("ParserError") (by simp)

/-- C9: missing values are dropped pairwise per dimension, not row-wise.
A joined row whose human score is missing in dimension A but which has a
valid pair in dimension B contributes that pair to dimension B, and
removing the row does not change dimension A's pair list at all (the row
contributes nothing there). -/
theorem pairwise_missing_isolation (joined : List JoinedRow) (r : JoinedRow)
    (A B : String) (a b : ℚ)
    (hr : r ∈ joined)
    (hA : cell r.hvals A = none)
    (hB1 : cell r.hvals B = some a) (hB2 : cell r.gvals B = some b) :
    (a, b) ∈ validPairs joined B ∧
      rowPair r A = none ∧
      validPairs (joined.erase r) A = validPairs joined A := by
  have hpB : rowPair r B = some (a, b) := by
    unfold rowPair
    rw [hB1, hB2]
  have hpA : rowPair r A = none := by
    unfold rowPair
    rw [hA]
  refine ⟨List.mem_filterMap.mpr ⟨r, hr, hpB⟩, hpA, ?_⟩
  exact filterMap_erase _ joined r hpA

/-- Witness for C9 at a concrete joined table of one row. -/
theorem pairwise_missing_isolation_witness :
    ((1 : ℚ), (2 : ℚ)) ∈ validPairs [rMissA] ("B") ∧
      rowPair rMissA ("A") = none ∧
      validPairs ([rMissA].erase rMissA) ("A") = validPairs [rMissA] ("A") :=
  pairwise_missing_isolation [rMissA] rMissA ("A") ("B") 1 2
    (by simp)
    (by simp [rMissA, cell, List.lookup])
    (by simp [rMissA, cell, List.lookup])
    (by simp [rMissA, cell, List.lookup])

/-! ### The compare_results per-dimension loop as a list computation. -/

theorem gptStep_foldl (joined : List JoinedRow) (gcols : List String) :
    ∀ (cols : List String) (acc : GptAcc),
      cols.foldl (gptStep joined gcols) acc =
        GptAcc.mk
          (acc.kappaList ++
            (procPairs joined gcols cols).filterMap cohenKappaQuad)
          (acc.exactList ++ (procPairs joined gcols cols).map exactPct)
          (acc.adjacentList ++ (procPairs joined gcols cols).map adjacentPct)
          (acc.maeList ++ (procPairs joined gcols cols).map maeOf) := by
  intro cols
  induction cols with
  | nil =>
      intro acc
      cases acc
      simp [procPairs]
  | cons d ds ih =>
      intro acc
      rw [List.foldl_cons, ih]
      by_cases hd : d ∈ gcols
      · by_cases hp : (validPairs joined d).isEmpty
        · have hstep : gptStep joined gcols acc d = acc := by
            unfold gptStep
            rw [if_pos hd]
            dsimp only
            rw [if_pos hp]
          have hproc : procPairs joined gcols (d :: ds) =
              procPairs joined gcols ds := by
            simp [procPairs, List.filter_cons, hd, hp]
          rw [hstep, hproc]
        · have hproc : procPairs joined gcols (d :: ds) =
              validPairs joined d :: procPairs joined gcols ds := by
            simp [procPairs, List.filter_cons, hd, hp]
          rw [hproc]
          cases hk : cohenKappaQuad (validPairs joined d) with
          | none =>
              have hstep : gptStep joined gcols acc d =
                  GptAcc.mk acc.kappaList
                    (acc.exactList ++ [exactPct (validPairs joined d)])
                    (acc.adjacentList ++ [adjacentPct (validPairs joined d)])
                    (acc.maeList ++ [maeOf (validPairs joined d)]) := by
                unfold gptStep
                rw [if_pos hd]
                dsimp only
                rw [if_neg hp, hk]
              rw [hstep]
              simp [List.filterMap_cons, hk]
          | some k =>
              have hstep : gptStep joined gcols acc d =
                  GptAcc.mk (acc.kappaList ++ [k])
                    (acc.exactList ++ [exactPct (validPairs joined d)])
                    (acc.adjacentList ++ [adjacentPct (validPairs joined d)])
                    (acc.maeList ++ [maeOf (validPairs joined d)]) := by
                unfold gptStep
                rw [if_pos hd]
                dsimp only
                rw [if_neg hp, hk]
              rw [hstep]
              simp [List.filterMap_cons, hk]
      · have hstep : gptStep joined gcols acc d = acc := by
          unfold gptStep
          rw [if_neg hd]
        have hproc : procPairs joined gcols (d :: ds) =
            procPairs joined gcols ds := by
          simp [procPairs, List.filter_cons, hd]
        rw [hstep, hproc]

/-- C3: the aggregate kappa mean averages exactly the defined kappas of
the processed dimensions — an undefined kappa is skipped, not propagated —
and a collapsed expected-agreement denominator yields the undefined
sentinel (`none`), not an exception. -/
theorem kappa_mean_excludes_undefined (human gpt : Table) :
    ((evaluateOneGptFile human gpt).kappa_mean =
        npMean ((procPairsOf human gpt).filterMap cohenKappaQuad)) ∧
      (∀ pairs : List (ℚ × ℚ), kappaDen pairs = 0 →
        cohenKappaQuad pairs = none) := by
  constructor
  · unfold evaluateOneGptFile
    dsimp only
    rw [gptStep_foldl]
    simp [procPairsOf]
  · intro pairs hden
    unfold cohenKappaQuad
    by_cases he : pairs.isEmpty
    · rw [if_pos he]
    · rw [if_neg he, if_pos hden]

/-- Witness for C3: at the constant-score tables, the degenerate dimension
has an undefined kappa and the formula for the mean holds. -/
theorem kappa_mean_excludes_undefined_witness :
    kappaDen [((1 : ℚ), (1 : ℚ))] = 0 ∧
      cohenKappaQuad [((1 : ℚ), (1 : ℚ))] = none ∧
      (evaluateOneGptFile tC10Human tC10Gpt).kappa_mean =
        npMean ((procPairsOf tC10Human tC10Gpt).filterMap cohenKappaQuad) := by
  have hden : kappaDen [((1 : ℚ), (1 : ℚ))] = 0 := by
    norm_num [kappaDen, labelsOf, sortedCats, List.insertionSort,
      List.orderedInsert, confColSum, confRowSum, confCount, wq,
      Finset.sum_range_succ]
  exact ⟨hden,
    (kappa_mean_excludes_undefined tC10Human tC10Gpt).2 _ hden,
    (kappa_mean_excludes_undefined tC10Human tC10Gpt).1⟩

theorem length_filterMap_lt {α β : Type} (f : α → Option β) (l : List α)
    (h : ∃ a ∈ l, f a = none) : (l.filterMap f).length < l.length := by
  induction l with
  | nil => rcases h with ⟨a, ha, _⟩; cases ha
  | cons b t ih =>
      rcases h with ⟨a, ha, hfa⟩
      rcases List.mem_cons.mp ha with rfl | hmem
      · rw [List.filterMap_cons_none hfa, List.length_cons]
        exact Nat.lt_succ_of_le (List.length_filterMap_le f t)
      · rcases hfb : f b with _ | v
        · rw [List.filterMap_cons_none hfb, List.length_cons]
          exact Nat.lt_succ_of_le (List.length_filterMap_le f t)
        · rw [List.filterMap_cons_some hfb, List.length_cons, List.length_cons]
          exact Nat.succ_lt_succ (ih ⟨a, hmem, hfa⟩)

/-- C10: `n_dimensions_evaluated` counts exactly the processed dimensions
whose kappa is defined, while the exact/adjacent/MAE aggregates average
over every processed dimension (at least one valid pair); when some
processed dimension's kappa is undefined, the kappa mean runs over a
strictly smaller dimension set than the other three aggregates. -/
theorem aggregate_dimension_sets (human gpt : Table) :
    ((evaluateOneGptFile human gpt).n_dimensions_evaluated =
        ((procPairsOf human gpt).filterMap cohenKappaQuad).length) ∧
      ((evaluateOneGptFile human gpt).exact_mean =
        npMean ((procPairsOf human gpt).map exactPct)) ∧
      ((evaluateOneGptFile human gpt).adjacent_mean =
        npMean ((procPairsOf human gpt).map adjacentPct)) ∧
      ((evaluateOneGptFile human gpt).mae_dim_mean =
        npMean ((procPairsOf human gpt).map maeOf)) ∧
      ((∃ ps ∈ procPairsOf human gpt, cohenKappaQuad ps = none) →
        ((procPairsOf human gpt).filterMap cohenKappaQuad).length <
          (procPairsOf human gpt).length) := by
  refine ⟨?_, ?_, ?_, ?_, fun h => length_filterMap_lt _ _ h⟩ <;>
    · unfold evaluateOneGptFile
      dsimp only
      rw [gptStep_foldl]
      simp [procPairsOf]

theorem procPairsOf_tC10 :
    procPairsOf tC10Human tC10Gpt =
      [[((1 : ℚ), (1 : ℚ)), (1, 1)], [((0 : ℚ), (0 : ℚ)), (1, 1)]] := by
  have hm : mergeTables tC10Human tC10Gpt =
      [JoinedRow.mk ("P1") [(("a"), some 1), (("b"), some 0)]
          [(("a"), some 1), (("b"), some 0)],
        JoinedRow.mk ("P2") [(("a"), some 1), (("b"), some 1)]
          [(("a"), some 1), (("b"), some 1)]] := by
    simp [mergeTables, tC10Human, tC10Gpt, joinRows, List.lookup]
  unfold procPairsOf procPairs
  rw [hm]
  simp [tC10Human, tC10Gpt, validPairs, rowPair, cell, List.lookup,
    List.filter_cons, List.filterMap_cons]

/-- Witness for C10: at the concrete tables, dimension a's kappa is
undefined and the kappa mean runs over strictly fewer dimensions. -/
theorem aggregate_dimension_sets_witness :
    (∃ ps ∈ procPairsOf tC10Human tC10Gpt, cohenKappaQuad ps = none) ∧
      ((procPairsOf tC10Human tC10Gpt).filterMap cohenKappaQuad).length <
        (procPairsOf tC10Human tC10Gpt).length := by
  have hk : cohenKappaQuad [((1 : ℚ), (1 : ℚ)), (1, 1)] = none := by
    norm_num [cohenKappaQuad, kappaDen, labelsOf, sortedCats,
      List.insertionSort, List.orderedInsert, confColSum, confRowSum,
      confCount, wq, Finset.sum_range_succ]
  have hex : ∃ ps ∈ procPairsOf tC10Human tC10Gpt,
      cohenKappaQuad ps = none := by
    rw [procPairsOf_tC10]
    exact ⟨[(1, 1), (1, 1)], by simp, by simpa using hk⟩
  exact ⟨hex, (aggregate_dimension_sets tC10Human tC10Gpt).2.2.2.2 hex⟩

/-! ### Diagonal (self-comparison) lemmas for C7. -/

theorem wq_nonneg (i j : ℕ) : 0 ≤ wq i j := sq_nonneg _

theorem wq_self (i : ℕ) : wq i i = 0 := by simp [wq]

theorem confCount_nonneg (pairs : List (ℚ × ℚ)) (x y : ℚ) :
    (0 : ℚ) ≤ (confCount pairs x y : ℚ) := Nat.cast_nonneg _

theorem confCount_off_diag (pairs : List (ℚ × ℚ))
    (hdiag : ∀ p ∈ pairs, p.1 = p.2) (x y : ℚ) (hxy : x ≠ y) :
    confCount pairs x y = 0 := by
  rw [confCount, List.count_eq_zero]
  intro hmem
  exact hxy (hdiag (x, y) hmem)

theorem mem_pairs_of_mem_labels (pairs : List (ℚ × ℚ))
    (hdiag : ∀ p ∈ pairs, p.1 = p.2) (x : ℚ) (hx : x ∈ labelsOf pairs) :
    (x, x) ∈ pairs := by
  rcases List.mem_append.mp (mem_sortedCats.mp hx) with h | h
  · rcases List.mem_map.mp h with ⟨p, hp, rfl⟩
    have h2 := hdiag p hp
    have h3 : (p.1, p.1) = p := Prod.ext rfl h2
    rw [h3]
    exact hp
  · rcases List.mem_map.mp h with ⟨p, hp, rfl⟩
    have h2 := hdiag p hp
    have h3 : (p.2, p.2) = p := Prod.ext h2.symm rfl
    rw [h3]
    exact hp

theorem labels_getD_mem (pairs : List (ℚ × ℚ)) (i : ℕ)
    (hi : i < (labelsOf pairs).length) :
    (labelsOf pairs).getD i 0 ∈ labelsOf pairs := by
  rw [List.getD_eq_getElem _ _ hi]
  exact List.getElem_mem hi

theorem labels_getD_ne (pairs : List (ℚ × ℚ)) (i j : ℕ)
    (hi : i < (labelsOf pairs).length) (hj : j < (labelsOf pairs).length)
    (hij : i ≠ j) :
    (labelsOf pairs).getD i 0 ≠ (labelsOf pairs).getD j 0 := by
  rw [List.getD_eq_getElem _ _ hi, List.getD_eq_getElem _ _ hj]
  intro h
  have hnd : (labelsOf pairs).Nodup := sortedCats_nodup _
  exact hij ((hnd.getElem_inj_iff).mp h)

theorem confCount_diag_pos (pairs : List (ℚ × ℚ))
    (hdiag : ∀ p ∈ pairs, p.1 = p.2) (i : ℕ)
    (hi : i < (labelsOf pairs).length) :
    0 < confCount pairs ((labelsOf pairs).getD i 0)
      ((labelsOf pairs).getD i 0) := by
  rw [confCount]
  exact List.count_pos_iff.mpr
    (mem_pairs_of_mem_labels pairs hdiag _ (labels_getD_mem pairs i hi))

theorem confColSum_pos (pairs : List (ℚ × ℚ))
    (hdiag : ∀ p ∈ pairs, p.1 = p.2) (j : ℕ)
    (hj : j < (labelsOf pairs).length) :
    0 < confColSum pairs j := by
  unfold confColSum
  dsimp only
  refine Finset.sum_pos' (fun i _ => confCount_nonneg pairs _ _) ?_
  refine ⟨j, Finset.mem_range.mpr hj, ?_⟩
  exact_mod_cast confCount_diag_pos pairs hdiag j hj

theorem confRowSum_pos (pairs : List (ℚ × ℚ))
    (hdiag : ∀ p ∈ pairs, p.1 = p.2) (i : ℕ)
    (hi : i < (labelsOf pairs).length) :
    0 < confRowSum pairs i := by
  unfold confRowSum
  dsimp only
  refine Finset.sum_pos' (fun j _ => confCount_nonneg pairs _ _) ?_
  refine ⟨i, Finset.mem_range.mpr hi, ?_⟩
  exact_mod_cast confCount_diag_pos pairs hdiag i hi

theorem kappaNum_diag (pairs : List (ℚ × ℚ))
    (hdiag : ∀ p ∈ pairs, p.1 = p.2) : kappaNum pairs = 0 := by
  unfold kappaNum
  dsimp only
  refine Finset.sum_eq_zero (fun i hi => Finset.sum_eq_zero (fun j hj => ?_))
  by_cases hij : i = j
  · subst hij
    rw [wq_self, zero_mul]
  · rw [confCount_off_diag pairs hdiag _ _
      (labels_getD_ne pairs i j (Finset.mem_range.mp hi)
        (Finset.mem_range.mp hj) hij), Nat.cast_zero, mul_zero]

theorem kappaDen_diag_pos (pairs : List (ℚ × ℚ))
    (hdiag : ∀ p ∈ pairs, p.1 = p.2)
    (hK : 2 ≤ (labelsOf pairs).length) : 0 < kappaDen pairs := by
  have hS : 0 < ∑ k in Finset.range (labelsOf pairs).length,
      confColSum pairs k := by
    refine Finset.sum_pos (fun k hk => ?_) ?_
    · exact confColSum_pos pairs hdiag k (Finset.mem_range.mp hk)
    · exact ⟨0, Finset.mem_range.mpr (by omega)⟩
  have hterm : ∀ i ∈ Finset.range (labelsOf pairs).length,
      ∀ j ∈ Finset.range (labelsOf pairs).length,
      0 ≤ wq i j * (confColSum pairs i * confRowSum pairs j /
        (∑ k in Finset.range (labelsOf pairs).length, confColSum pairs k)) := by
    intro i hi j hj
    refine mul_nonneg (wq_nonneg i j) (div_nonneg (mul_nonneg ?_ ?_) hS.le)
    · exact (confColSum_pos pairs hdiag i (Finset.mem_range.mp hi)).le
    · exact (confRowSum_pos pairs hdiag j (Finset.mem_range.mp hj)).le
  unfold kappaDen
  dsimp only
  refine Finset.sum_pos' (fun i hi => Finset.sum_nonneg (hterm i hi)) ?_
  refine ⟨0, Finset.mem_range.mpr (by omega), ?_⟩
  refine Finset.sum_pos'
    (hterm 0 (Finset.mem_range.mpr (by omega))) ?_
  refine ⟨1, Finset.mem_range.mpr (by omega), ?_⟩
  have h01 : wq 0 1 = 1 := by norm_num [wq]
  rw [h01, one_mul]
  refine div_pos (mul_pos ?_ ?_) hS
  · exact confColSum_pos pairs hdiag 0 (by omega)
  · exact confRowSum_pos pairs hdiag 1 (by omega)

theorem cohenKappaQuad_diag (pairs : List (ℚ × ℚ))
    (hne : pairs ≠ []) (hdiag : ∀ p ∈ pairs, p.1 = p.2)
    (hK : 2 ≤ (labelsOf pairs).length) :
    cohenKappaQuad pairs = some 1 := by
  unfold cohenKappaQuad
  rw [if_neg (by simp [List.isEmpty_iff, hne]),
    if_neg (kappaDen_diag_pos pairs hdiag hK).ne',
    kappaNum_diag pairs hdiag, zero_div, sub_zero]

theorem exactPct_diag (pairs : List (ℚ × ℚ))
    (hne : pairs ≠ []) (hdiag : ∀ p ∈ pairs, p.1 = p.2) :
    exactPct pairs = 100 := by
  unfold exactPct
  rw [List.countP_eq_length.mpr (fun p hp => by simpa using hdiag p hp)]
  rw [div_self (by exact_mod_cast List.length_pos.mpr hne |>.ne')]
  norm_num

theorem adjacentPct_diag (pairs : List (ℚ × ℚ))
    (hne : pairs ≠ []) (hdiag : ∀ p ∈ pairs, p.1 = p.2) :
    adjacentPct pairs = 100 := by
  unfold adjacentPct
  rw [List.countP_eq_length.mpr (fun p hp => by
    simp [hdiag p hp])]
  rw [div_self (by exact_mod_cast List.length_pos.mpr hne |>.ne')]
  norm_num

theorem maeOf_diag (pairs : List (ℚ × ℚ))
    (hdiag : ∀ p ∈ pairs, p.1 = p.2) : maeOf pairs = 0 := by
  unfold maeOf
  rw [List.sum_eq_zero, zero_div]
  intro x hx
  rcases List.mem_map.mp hx with ⟨p, hp, rfl⟩
  rw [hdiag p hp]
  simp

theorem mergeTables_self_vals (t : Table)
    (hnd : (t.rows.map Prod.fst).Nodup) :
    ∀ r ∈ mergeTables t t, r.hvals = r.gvals := by
  intro r hr
  unfold mergeTables joinRows at hr
  rcases List.mem_filterMap.mp hr with ⟨hrow, hmem, hmap⟩
  rcases Option.map_eq_some'.mp hmap with ⟨gv, hlk, hre⟩
  have hself : t.rows.lookup hrow.1 = some hrow.2 :=
    lookup_of_nodup _ _ _ hnd (by rw [Prod.mk.eta]; exact hmem)
  rw [hself] at hlk
  injection hlk with hlk
  rw [← hre, ← hlk]

theorem validPairs_self_diag (t : Table)
    (hnd : (t.rows.map Prod.fst).Nodup) (d : String) :
    ∀ p ∈ validPairs (mergeTables t t) d, p.1 = p.2 := by
  intro p hp
  rcases List.mem_filterMap.mp hp with ⟨r, hr, hrp⟩
  have hv := mergeTables_self_vals t hnd r hr
  unfold rowPair at hrp
  rw [hv] at hrp
  cases hc : cell r.gvals d with
  | none => rw [hc] at hrp; cases hrp
  | some a =>
      rw [hc] at hrp
      injection hrp with hrp
      rw [← hrp]

/-- C7: comparing a rated table (with unique paper identifiers) against
itself gives, for every dimension with at least one valid pair, exact
agreement 100%, adjacent agreement 100%, MAE 0, and — when at least two
distinct score categories are observed — quadratic-weighted kappa 1. -/
theorem self_comparison_identity (t : Table)
    (hnd : (t.rows.map Prod.fst).Nodup) (d : String)
    (hne : validPairs (mergeTables t t) d ≠ []) :
    exactPct (validPairs (mergeTables t t) d) = 100 ∧
      adjacentPct (validPairs (mergeTables t t) d) = 100 ∧
      maeOf (validPairs (mergeTables t t) d) = 0 ∧
      (2 ≤ (labelsOf (validPairs (mergeTables t t) d)).length →
        cohenKappaQuad (validPairs (mergeTables t t) d) = some 1) := by
  have hdiag := validPairs_self_diag t hnd d
  exact ⟨exactPct_diag _ hne hdiag, adjacentPct_diag _ hne hdiag,
    maeOf_diag _ hdiag,
    fun hK => cohenKappaQuad_diag _ hne hdiag hK⟩

theorem validPairs_tC7_self :
    validPairs (mergeTables tC7 tC7) ("a") = [(0, 0), (1, 1)] := by
  have hm : mergeTables tC7 tC7 =
      [JoinedRow.mk ("P1") [(("a"), some 0)] [(("a"), some 0)],
        JoinedRow.mk ("P2") [(("a"), some 1)] [(("a"), some 1)]] := by
    simp [mergeTables, tC7, joinRows, List.lookup]
  rw [hm]
  norm_num [validPairs, rowPair, cell, List.lookup, List.filterMap_cons]

/-- Witness for C7 at a concrete two-paper table with scores 0 and 1. -/
theorem self_comparison_identity_witness :
    exactPct (validPairs (mergeTables tC7 tC7) ("a")) = 100 ∧
      adjacentPct (validPairs (mergeTables tC7 tC7) ("a")) = 100 ∧
      maeOf (validPairs (mergeTables tC7 tC7) ("a")) = 0 ∧
      cohenKappaQuad (validPairs (mergeTables tC7 tC7) ("a")) = some 1 := by
  have hK : 2 ≤ (labelsOf (validPairs (mergeTables tC7 tC7) ("a"))).length := by
    rw [validPairs_tC7_self]
    norm_num [labelsOf, sortedCats, List.insertionSort, List.orderedInsert]
  have h := self_comparison_identity tC7 (by
      simp [tC7, List.nodup_cons]) ("a")
    (by rw [validPairs_tC7_self]; simp)
  exact ⟨h.1, h.2.1, h.2.2.1, h.2.2.2 hK⟩

/-! ### Role-swap (symmetry) lemmas for C8. -/

theorem wq_comm (i j : ℕ) : wq i j = wq j i := by
  unfold wq; ring

theorem labelsOf_swap (pairs : List (ℚ × ℚ)) :
    labelsOf (pairs.map Prod.swap) = labelsOf pairs := by
  unfold labelsOf
  apply sortedCats_congr
  intro x
  rw [List.map_map, List.map_map]
  have h1 : (Prod.fst ∘ Prod.swap : ℚ × ℚ → ℚ) = Prod.snd := rfl
  have h2 : (Prod.snd ∘ Prod.swap : ℚ × ℚ → ℚ) = Prod.fst := rfl
  rw [h1, h2]
  simp [List.mem_append]
  tauto

theorem count_swap (pairs : List (ℚ × ℚ)) (x y : ℚ) :
    (pairs.map Prod.swap).count (x, y) = pairs.count (y, x) := by
  induction pairs with
  | nil => rfl
  | cons p t ih =>
      obtain ⟨p1, p2⟩ := p
      simp only [List.map_cons, List.count_cons, ih, beq_iff_eq,
        Prod.mk.injEq, Prod.swap_prod_mk]
      by_cases h1 : x = p2 <;> by_cases h2 : y = p1 <;>
        simp [h1, h2, eq_comm, and_comm]

theorem confCount_swap (pairs : List (ℚ × ℚ)) (x y : ℚ) :
    confCount (pairs.map Prod.swap) x y = confCount pairs y x := by
  unfold confCount
  exact count_swap pairs x y

theorem confColSum_swap (pairs : List (ℚ × ℚ)) (j : ℕ) :
    confColSum (pairs.map Prod.swap) j = confRowSum pairs j := by
  unfold confColSum confRowSum
  dsimp only
  rw [labelsOf_swap]
  exact Finset.sum_congr rfl (fun i _ => by rw [confCount_swap])

theorem confRowSum_swap (pairs : List (ℚ × ℚ)) (i : ℕ) :
    confRowSum (pairs.map Prod.swap) i = confColSum pairs i := by
  unfold confColSum confRowSum
  dsimp only
  rw [labelsOf_swap]
  exact Finset.sum_congr rfl (fun j _ => by rw [confCount_swap])

theorem kappaNum_swap (pairs : List (ℚ × ℚ)) :
    kappaNum (pairs.map Prod.swap) = kappaNum pairs := by
  unfold kappaNum
  dsimp only
  rw [labelsOf_swap]
  rw [Finset.sum_comm]
  refine Finset.sum_congr rfl (fun j _ => Finset.sum_congr rfl (fun i _ => ?_))
  rw [confCount_swap, wq_comm]

theorem sum_confRowSum (pairs : List (ℚ × ℚ)) :
    (∑ k in Finset.range (labelsOf pairs).length, confRowSum pairs k) =
      ∑ k in Finset.range (labelsOf pairs).length, confColSum pairs k := by
  unfold confRowSum confColSum
  dsimp only
  exact Finset.sum_comm

theorem kappaDen_swap (pairs : List (ℚ × ℚ)) :
    kappaDen (pairs.map Prod.swap) = kappaDen pairs := by
  unfold kappaDen
  dsimp only
  rw [labelsOf_swap]
  simp only [confColSum_swap, confRowSum_swap, sum_confRowSum]
  rw [Finset.sum_comm]
  refine Finset.sum_congr rfl (fun j _ => Finset.sum_congr rfl (fun i _ => ?_))
  rw [wq_comm]
  ring

theorem isEmpty_map_swap (pairs : List (ℚ × ℚ)) :
    (pairs.map Prod.swap).isEmpty = pairs.isEmpty := by
  cases pairs <;> rfl

theorem cohenKappaQuad_swap (pairs : List (ℚ × ℚ)) :
    cohenKappaQuad (pairs.map Prod.swap) = cohenKappaQuad pairs := by
  unfold cohenKappaQuad
  rw [kappaNum_swap, kappaDen_swap, isEmpty_map_swap]

theorem coinMat_swap (pairs : List (ℚ × ℚ)) (x y : ℚ) :
    coinMat (pairs.map Prod.swap) x y = coinMat pairs x y := by
  rw [coinMat_eq_specCoin, coinMat_eq_specCoin]
  unfold specCoin
  rw [count_swap, count_swap, Nat.add_comm]

theorem krippCats_swap (pairs : List (ℚ × ℚ)) :
    krippCats (pairs.map Prod.swap) = krippCats pairs :=
  labelsOf_swap pairs

theorem totalCoin_swap (pairs : List (ℚ × ℚ)) :
    totalCoin (pairs.map Prod.swap) = totalCoin pairs := by
  unfold totalCoin
  dsimp only
  simp only [krippCats_swap, coinMat_swap]

theorem krippMarg_swap (pairs : List (ℚ × ℚ)) (a : ℕ) :
    krippMarg (pairs.map Prod.swap) a = krippMarg pairs a := by
  unfold krippMarg
  dsimp only
  simp only [krippCats_swap, coinMat_swap]

theorem krippDo_swap (pairs : List (ℚ × ℚ)) :
    krippDo (pairs.map Prod.swap) = krippDo pairs := by
  unfold krippDo
  dsimp only
  rw [totalCoin_swap]
  simp only [krippCats_swap, coinMat_swap]

theorem krippDe_swap (pairs : List (ℚ × ℚ)) :
    krippDe (pairs.map Prod.swap) = krippDe pairs := by
  unfold krippDe
  dsimp only
  simp only [krippCats_swap, krippMarg_swap]

theorem krippAlpha_swap (pairs : List (ℚ × ℚ)) :
    krippAlpha (pairs.map Prod.swap) = krippAlpha pairs := by
  unfold krippAlpha
  rw [krippCats_swap, totalCoin_swap, krippDo_swap, krippDe_swap]

theorem lookup_cons_ne {β : Type} (k : String) (p : String × β)
    (l : List (String × β)) (h : k ≠ p.1) :
    List.lookup k (p :: l) = List.lookup k l := by
  obtain ⟨k1, v⟩ := p
  have hb : (k == k1) = false := by simpa using h
  simp [List.lookup, hb]

/-- Swapping the two input tables of the inner join swaps the two halves
of every joined row, provided the two tables list the same paper
identifiers in the same order and identifiers are unique. -/
theorem joinRows_swap :
    ∀ (hrows grows : List (String × List (String × Option ℚ))),
      hrows.map Prod.fst = grows.map Prod.fst →
      (hrows.map Prod.fst).Nodup →
      joinRows grows hrows = (joinRows hrows grows).map swapRow := by
  intro hrows
  induction hrows with
  | nil =>
      intro grows hkeys hnd
      have hg : grows = [] := List.map_eq_nil_iff.mp hkeys.symm
      subst hg
      rfl
  | cons a ht ih =>
      intro grows hkeys hnd
      cases grows with
      | nil => simp at hkeys
      | cons b gt =>
          simp only [List.map_cons, List.cons.injEq] at hkeys
          obtain ⟨hk1, hkt⟩ := hkeys
          rw [List.map_cons] at hnd
          obtain ⟨hna, hnt⟩ := List.nodup_cons.mp hnd
          have hl1 : List.lookup a.1 (b :: gt) = some b.2 := by
            obtain ⟨b1, bv⟩ := b
            have hb : (a.1 == b1) = true := by simpa using hk1
            simp [List.lookup, hb]
          have hl2 : List.lookup b.1 (a :: ht) = some a.2 := by
            obtain ⟨a1, av⟩ := a
            have hb : (b.1 == a1) = true := by simpa using hk1.symm
            simp [List.lookup, hb]
          have htail1 : ∀ hr ∈ ht, List.lookup hr.1 (b :: gt) =
              List.lookup hr.1 gt := by
            intro hr hm
            refine lookup_cons_ne _ _ _ ?_
            intro he
            exact hna (by
              rw [← hk1] at he
              rw [← he]
              exact List.mem_map.mpr ⟨hr, hm, rfl⟩)
          have htail2 : ∀ gr ∈ gt, List.lookup gr.1 (a :: ht) =
              List.lookup gr.1 ht := by
            intro gr hm
            refine lookup_cons_ne _ _ _ ?_
            intro he
            have : gr.1 ∈ ht.map Prod.fst := by
              rw [hkt]
              exact List.mem_map.mpr ⟨gr, hm, rfl⟩
            rw [he] at this
            exact hna this
          have hLhead : joinRows (b :: gt) (a :: ht) =
              JoinedRow.mk b.1 b.2 a.2 :: joinRows gt (a :: ht) := by
            unfold joinRows
            rw [List.filterMap_cons_some (by rw [hl2]; rfl)]
          have hstep1 : joinRows gt (a :: ht) = joinRows gt ht := by
            unfold joinRows
            exact List.filterMap_congr (fun gr hm => by rw [htail2 gr hm])
          have hRhead : joinRows (a :: ht) (b :: gt) =
              JoinedRow.mk a.1 a.2 b.2 :: joinRows ht (b :: gt) := by
            unfold joinRows
            rw [List.filterMap_cons_some (by rw [hl1]; rfl)]
          have hstep2 : joinRows ht (b :: gt) = joinRows ht gt := by
            unfold joinRows
            exact List.filterMap_congr (fun hr hm => by rw [htail1 hr hm])
          rw [hLhead, hstep1, hRhead, hstep2, List.map_cons,
            ih gt hkt hnt]
          congr 1
          unfold swapRow
          rw [hk1]

theorem mergeTables_swap (human gpt : Table)
    (hnames : human.rows.map Prod.fst = gpt.rows.map Prod.fst)
    (hnd : (human.rows.map Prod.fst).Nodup) :
    mergeTables gpt human = (mergeTables human gpt).map swapRow :=
  joinRows_swap human.rows gpt.rows hnames hnd

theorem rowPair_swapRow (r : JoinedRow) (d : String) :
    rowPair (swapRow r) d = (rowPair r d).map Prod.swap := by
  unfold rowPair swapRow
  dsimp only
  cases cell r.hvals d <;> cases cell r.gvals d <;> rfl

theorem validPairs_swapRow (joined : List JoinedRow) (d : String) :
    validPairs (joined.map swapRow) d =
      (validPairs joined d).map Prod.swap := by
  unfold validPairs
  rw [List.filterMap_map, List.map_filterMap]
  exact List.filterMap_congr (fun r _ => by rw [Function.comp_apply, rowPair_swapRow])

theorem errorTypeOf_neg (δ : ℚ) : errorTypeOf (-δ) = errorTypeOf δ := by
  unfold errorTypeOf
  simp only [neg_eq_zero, abs_neg]

theorem directionOf_neg (δ : ℚ) : directionOf (-δ) = flipDir (directionOf δ) := by
  have fo : flipDir ("over") = ("under") := by decide
  have fu : flipDir ("under") = ("over") := by decide
  have fn : flipDir ("none") = ("none") := by decide
  rcases lt_trichotomy δ 0 with h | h | h
  · have d1 : directionOf δ = ("under") := by
      unfold directionOf
      rw [if_neg (by linarith), if_pos h]
    have d2 : directionOf (-δ) = ("over") := by
      unfold directionOf
      rw [if_pos (by linarith)]
    rw [d1, d2, fu]
  · subst h
    have d1 : directionOf (0 : ℚ) = ("none") := by
      unfold directionOf
      norm_num
    rw [neg_zero, d1, fn]
  · have d1 : directionOf δ = ("over") := by
      unfold directionOf
      rw [if_pos h]
    have d2 : directionOf (-δ) = ("under") := by
      unfold directionOf
      rw [if_neg (by linarith), if_pos (by linarith)]
    rw [d1, d2, fo]

theorem countP_map_neg (l : List ℚ) (p q : ℚ → Bool)
    (h : ∀ δ, p (-δ) = q δ) :
    (l.map (fun δ => -δ)).countP p = l.countP q := by
  rw [List.countP_map]
  exact List.countP_congr (fun a _ => by simp [Function.comp, h a])

theorem pctOf_map_neg (l : List ℚ) (p q : ℚ → Bool)
    (h : ∀ δ, p (-δ) = q δ) :
    pctOf (l.map (fun δ => -δ)) p = pctOf l q := by
  unfold pctOf
  have he : (l.map (fun δ => -δ)).isEmpty = l.isEmpty := by cases l <;> rfl
  rw [he, List.length_map, countP_map_neg l p q h]

theorem collectDeltas_swap (human gpt : Table)
    (hvp : ∀ d, validPairs (mergeTables gpt human) d =
      (validPairs (mergeTables human gpt) d).map Prod.swap) :
    ∀ cols : List String, (∀ d ∈ cols, d ∈ gpt.cols) →
      (∀ d ∈ cols, d ∈ human.cols) →
      ∃ D, collectDeltas human gpt cols = Except.ok D ∧
        collectDeltas gpt human cols = Except.ok (D.map (fun δ => -δ)) := by
  intro cols
  induction cols with
  | nil => intro _ _; exact ⟨[], rfl, rfl⟩
  | cons d ds ih =>
      intro hg hh
      obtain ⟨Dr, hDr1, hDr2⟩ :=
        ih (fun x hx => hg x (List.mem_cons_of_mem _ hx))
          (fun x hx => hh x (List.mem_cons_of_mem _ hx))
      have hd1 : dimDeltas human gpt d =
          Except.ok ((validPairs (mergeTables human gpt) d).map
            (fun p => p.2 - p.1)) := by
        unfold dimDeltas
        rw [if_pos (hg d (by simp))]
      have hd2 : dimDeltas gpt human d =
          Except.ok (((validPairs (mergeTables human gpt) d).map
            (fun p => p.2 - p.1)).map (fun δ => -δ)) := by
        unfold dimDeltas
        rw [if_pos (hh d (by simp)), hvp d]
        congr 1
        rw [List.map_map, List.map_map]
        congr 1
        funext p
        show p.1 - p.2 = -(p.2 - p.1)
        rw [neg_sub]
      refine ⟨(validPairs (mergeTables human gpt) d).map (fun p => p.2 - p.1)
          ++ Dr, ?_, ?_⟩
      · simp [collectDeltas, hd1, hDr1, Bind.bind, Except.bind]
      · simp [collectDeltas, hd2, hDr2, Bind.bind, Except.bind]

/-- C8: swapping the human and automated roles (over tables with the same
dimension columns and the same unique paper identifiers) negates every
individual delta, keeps its error type, flips its over/under direction,
leaves the exact/minor/severe percentages unchanged, swaps the
over-scoring and under-scoring percentages, and leaves every dimension's
quadratic kappa and ordinal alpha unchanged. -/
theorem role_swap_symmetry (human gpt : Table)
    (hcols : human.cols = gpt.cols)
    (hnames : human.rows.map Prod.fst = gpt.rows.map Prod.fst)
    (hnd : (human.rows.map Prod.fst).Nodup) :
    (∀ d : String,
      cohenKappaQuad (validPairs (mergeTables gpt human) d) =
        cohenKappaQuad (validPairs (mergeTables human gpt) d) ∧
      krippAlpha (validPairs (mergeTables gpt human) d) =
        krippAlpha (validPairs (mergeTables human gpt) d)) ∧
    ∃ S D S2 D2,
      analyzeGptFile human gpt = Except.ok (S, D) ∧
      analyzeGptFile gpt human = Except.ok (S2, D2) ∧
      D2.map DetailRow.delta = (D.map DetailRow.delta).map (fun δ => -δ) ∧
      D2.map DetailRow.error_type = D.map DetailRow.error_type ∧
      D2.map DetailRow.direction = (D.map DetailRow.direction).map flipDir ∧
      S2.exact_pct = S.exact_pct ∧
      S2.minor_pct = S.minor_pct ∧
      S2.severe_pct = S.severe_pct ∧
      S2.over_pct = S.under_pct ∧
      S2.under_pct = S.over_pct := by
  have hms := mergeTables_swap human gpt hnames hnd
  have hvp : ∀ d, validPairs (mergeTables gpt human) d =
      (validPairs (mergeTables human gpt) d).map Prod.swap := by
    intro d
    rw [hms, validPairs_swapRow]
  constructor
  · intro d
    rw [hvp d]
    exact ⟨cohenKappaQuad_swap _, krippAlpha_swap _⟩
  · obtain ⟨D0, hD1, hD2⟩ := collectDeltas_swap human gpt hvp human.cols
      (fun d hd => hcols ▸ hd) (fun d hd => hd)
    refine ⟨ErrorSummary.mk D0.length
        (pctOf D0 (fun δ => decide (δ = 0)))
        (pctOf D0 (fun δ => decide (|δ| = 1)))
        (pctOf D0 (fun δ => decide (|δ| = 2)))
        (pctOf D0 (fun δ => decide (0 < δ)))
        (pctOf D0 (fun δ => decide (δ < 0)))
        (npMean D0),
      D0.map (fun δ => DetailRow.mk δ (errorTypeOf δ) (directionOf δ)),
      ErrorSummary.mk (D0.map (fun δ => -δ)).length
        (pctOf (D0.map (fun δ => -δ)) (fun δ => decide (δ = 0)))
        (pctOf (D0.map (fun δ => -δ)) (fun δ => decide (|δ| = 1)))
        (pctOf (D0.map (fun δ => -δ)) (fun δ => decide (|δ| = 2)))
        (pctOf (D0.map (fun δ => -δ)) (fun δ => decide (0 < δ)))
        (pctOf (D0.map (fun δ => -δ)) (fun δ => decide (δ < 0)))
        (npMean (D0.map (fun δ => -δ))),
      (D0.map (fun δ => -δ)).map
        (fun δ => DetailRow.mk δ (errorTypeOf δ) (directionOf δ)),
      ?_, ?_, ?_, ?_, ?_, ?_, ?_, ?_, ?_, ?_⟩
    · simp [analyzeGptFile, hD1, Bind.bind, Except.bind]
    · unfold analyzeGptFile
      rw [← hcols, hD2]
      simp [Bind.bind, Except.bind]
    · simp [List.map_map, Function.comp]
    · simp only [List.map_map]
      refine List.map_congr_left ?_
      intro δ _
      exact errorTypeOf_neg δ
    · simp only [List.map_map]
      refine List.map_congr_left ?_
      intro δ _
      exact directionOf_neg δ
    · exact pctOf_map_neg D0 _ _ (fun δ => by simp [neg_eq_zero])
    · exact pctOf_map_neg D0 _ _ (fun δ => by simp [abs_neg])
    · exact pctOf_map_neg D0 _ _ (fun δ => by simp [abs_neg])
    · exact pctOf_map_neg D0 _ _ (fun δ => by simp [neg_pos])
    · exact pctOf_map_neg D0 _ _ (fun δ => by simp [neg_neg_iff_pos, Left.neg_neg_iff])

/-- Witness for C8 at concrete tables over the same papers and
dimensions. -/
theorem role_swap_symmetry_witness :
    (∀ d : String,
      cohenKappaQuad (validPairs (mergeTables tC8Gpt tC10Human) d) =
        cohenKappaQuad (validPairs (mergeTables tC10Human tC8Gpt) d) ∧
      krippAlpha (validPairs (mergeTables tC8Gpt tC10Human) d) =
        krippAlpha (validPairs (mergeTables tC10Human tC8Gpt) d)) ∧
    ∃ S D S2 D2,
      analyzeGptFile tC10Human tC8Gpt = Except.ok (S, D) ∧
      analyzeGptFile tC8Gpt tC10Human = Except.ok (S2, D2) ∧
      D2.map DetailRow.delta = (D.map DetailRow.delta).map (fun δ => -δ) ∧
      D2.map DetailRow.error_type = D.map DetailRow.error_type ∧
      D2.map DetailRow.direction = (D.map DetailRow.direction).map flipDir ∧
      S2.exact_pct = S.exact_pct ∧
      S2.minor_pct = S.minor_pct ∧
      S2.severe_pct = S.severe_pct ∧
      S2.over_pct = S.under_pct ∧
      S2.under_pct = S.over_pct :=
  role_swap_symmetry tC10Human tC8Gpt rfl rfl (by
    simp [tC10Human, List.nodup_cons])

example : npMean [1, 2, 3] = some 2 := by norm_num [npMean]
example : npMean [] = none := by norm_num [npMean]
example : labelsOf [(0, 1), (1, 0)] = [0, 1] := by
  norm_num [labelsOf, sortedCats, List.insertionSort, List.orderedInsert]
example : cohenKappaQuad [(0, 0), (1, 1)] = some 1 := by
  norm_num [cohenKappaQuad, kappaNum, kappaDen, labelsOf, sortedCats,
    List.insertionSort, List.orderedInsert, confCount, confColSum, confRowSum,
    Finset.sum_range_succ, wq, List.count_cons, List.isEmpty, Prod.ext_iff]
example : krippAlpha [(0, 0), (1, 1)] = some 1 := by
  norm_num [krippAlpha, krippCats, krippDo, krippDe, krippMarg, totalCoin,
    sortedCats, List.insertionSort, List.orderedInsert, coinMat, coinStep,
    Finset.sum_range_succ, delta2, List.foldl, Prod.ext_iff]

end SerbianEval
